import Mathlib

/-!
Verification of the formik-to-conform codemod (src/index.ts) against its
natural-language specification.  The transformation passes are embedded
shallowly: each pass of the source file becomes a Lean function over an
explicit syntax-tree model, and the spec's claims become theorems about
those functions.  Definitions come first, theorems afterwards.
-/

namespace FormikToConform

/-! ## Text-level fast path of `convert` (src/index.ts lines 1018-1026)

`convert` first checks two plain substrings of the input text; only when one
is present does it hand the text to the parser.  Text is modelled as
`List Char`; `containsSub` models JavaScript `String.prototype.includes`. -/

/-- Does `hay` begin with `needle`, character by character? -/
def beginsWith : List Char → List Char → Bool
  | [], _ => true
  | _ :: _, [] => false
  | a :: as, b :: bs => a == b && beginsWith as bs

/-- Does `hay` contain `needle` as a contiguous substring?
Models `hay.includes(needle)` from JavaScript. -/
def containsSub (needle : List Char) : List Char → Bool
  | [] => beginsWith needle []
  | c :: rest => beginsWith needle (c :: rest) || containsSub needle rest

/-- `code.includes('from "formik"')` — the import-path prefilter. -/
def hasFormikImport (code : List Char) : Bool :=
  containsSub ("from \"formik\"".data) code

/-- `code.includes("useFormikContext")` — the context-hook prefilter. -/
def hasUseFormikContext (code : List Char) : Bool :=
  containsSub ("useFormikContext".data) code

/-- The orchestrator `convert`, as far as its fast path is concerned.
`pipeline` abstracts the parse → transform → pretty-print path taken when the
source library is detected; the second component records whether the parser
was invoked.  When neither substring occurs, the input is returned as-is and
the parser is never called. -/
def convert (pipeline : List Char → List Char) (code : List Char) :
    List Char × Bool :=
  if hasFormikImport code || hasUseFormikContext code then (pipeline code, true)
  else (code, false)

/-! ## JSX model for the attribute-to-call transform
(`transformToGetInputProps`, src/index.ts lines 169-292)

The transform inspects and builds expressions, JSX attributes and JSX
elements.  `JExpr` covers exactly the expression shapes the transform
distinguishes; every other expression travels through it opaquely as
`otherE`. -/

/-- Expressions, as far as the element transform inspects or builds them. -/
inductive JExpr where
  | identE (name : String)
  | strLitE (s : String)
  | boolLitE (b : Bool)
  | emptyE
  | memberE (obj : JExpr) (prop : JExpr) (computed : Bool)
  | callE (callee : JExpr) (args : List JExpr)
  | objE (props : List (String × JExpr))
  | otherE (tag : String)

/-- A JSX attribute value: a string literal or an expression container. -/
inductive AttrValue where
  | strLit (s : String)
  | container (e : JExpr)

/-- A JSX attribute: named (a `value` of `none` models a bare attribute,
whose AST `value` field is `null`) or a spread attribute. -/
inductive JSXAttr where
  | named (name : String) (value : Option AttrValue)
  | spread (arg : JExpr)

/-- Is `a` a `JSXAttribute` with name `n`?  (Spread attributes never match,
as in `findAttribute`, lines 127-137.) -/
def attrHasName (a : JSXAttr) (n : String) : Bool :=
  match a with
  | .named m _ => m == n
  | .spread _ => false

/-- `findAttribute` (lines 127-137): first attribute with the given name. -/
def findAttribute (attrs : List JSXAttr) (n : String) : Option JSXAttr :=
  attrs.find? (fun a => attrHasName a n)

/-- The union `extractAttributeValue` returns: a string, a boolean (only the
`disabled` coercion produces one), a passed-through expression node, or
JavaScript `undefined`. -/
inductive Extracted where
  | str (s : String)
  | boolV (b : Bool)
  | expr (e : JExpr)
  | undef

/-- `extractAttributeValue` (lines 99-122): an absent attribute or a null
(`bare`) value yields the default; a string literal goes through `toValue`;
a non-empty expression container is passed through verbatim; anything else
falls back to the default. -/
def extractAttributeValue (attr : Option JSXAttr) (dflt : Extracted)
    (toValue : String → Extracted) : Extracted :=
  match attr with
  | some (.named _ (some (.strLit s))) => toValue s
  | some (.named _ (some (.container e))) =>
      match e with
      | .emptyE => dflt
      | _ => .expr e
  | _ => dflt

/-- JavaScript truthiness on the extracted union: `undefined`, `""` and
`false` are falsy; an AST node (object) is always truthy. -/
def truthy : Extracted → Bool
  | .undef => false
  | .str s => !(s == "")
  | .boolV b => b
  | .expr _ => true

/-- JavaScript `a || b` on extracted values. -/
def jsOr (a b : Extracted) : Extracted := if truthy a then a else b

/-- The `toValue` of the `disabled` entry of the `ATTRS` table
(line 214): `v === "true" ? true : v`. -/
def disabledToValue (s : String) : Extracted :=
  if s == "true" then .boolV true else .str s

/-- One entry of the `ATTRS` carry-over table (lines 200-216). -/
structure AttrSpec where
  name : String
  dflt : Extracted
  toValue : String → Extracted

/-- The `ATTRS` table: `type` (default `"text"`), `placeholder` (no default),
`disabled` (no default, string `"true"` coerced to boolean `true`). -/
def ATTRS : List AttrSpec :=
  [⟨"type", .str "text", Extracted.str⟩,
   ⟨"placeholder", .undef, Extracted.str⟩,
   ⟨"disabled", .undef, disabledToValue⟩]

/-- The object-literal property contributed by one `ATTRS` entry
(lines 219-248): `undefined` is skipped, strings and booleans become
literals, expression nodes are passed through.  (The source also skips
`null` and key-less objects; neither can reach this point, since the
defaults are `undefined` and extracted nodes are AST nodes.) -/
def propertyFor (attrs : List JSXAttr) (spec : AttrSpec) :
    Option (String × JExpr) :=
  match extractAttributeValue (findAttribute attrs spec.name) spec.dflt
      spec.toValue with
  | .undef => none
  | .str s => some (spec.name, .strLitE s)
  | .boolV b => some (spec.name, .boolLitE b)
  | .expr e => some (spec.name, e)

/-- The full synthesized options object for `getInputProps` (lines 218-248). -/
def getInputPropsProperties (attrs : List JSXAttr) : List (String × JExpr) :=
  ATTRS.filterMap (propertyFor attrs)

/-- `j.stringLiteral` / `j.literal` demand a string argument; the transform
only ever feeds them strings when the `name`/`id` attribute values are string
literals or absent (otherwise the ast-types builder would throw at runtime,
outside the modelled domain; theorem hypotheses restrict to the string
domain). -/
def stringLitValue : Extracted → String
  | .str s => s
  | _ => ""

/-- `extractCustomComponentName` (lines 297-320): an `as={Identifier}`
container or an `as="string"` literal yields a component name. -/
def extractCustomComponentName (a : JSXAttr) : Option String :=
  match a with
  | .named _ (some (.container (.identE n))) => some n
  | .named _ (some (.strLit s)) => some s
  | _ => none

/-- A JSX element, as far as `transformToGetInputProps` manipulates one. -/
structure JSXElem where
  tag : String
  attrs : List JSXAttr
  selfClosing : Bool
  children : List JExpr

/-- The attribute filter of lines 182-190: drop `onChange`, `onBlur` and
`value` attributes (spread attributes always survive the filter). -/
def filterEventAttrs (attrs : List JSXAttr) : List JSXAttr :=
  attrs.filter (fun a =>
    !(attrHasName a "onChange" || attrHasName a "onBlur" ||
      attrHasName a "value"))

/-- The extracted `name` attribute value of lines 192-194 (`null` for plain
elements, since `nameAttr` is only looked up for `Field` components). -/
def fieldNameOfElem (attrs1 : List JSXAttr) (isField : Bool) : Extracted :=
  extractAttributeValue (if isField then findAttribute attrs1 "name" else none)
    .undef Extracted.str

/-- The `idValue` of lines 195-197: the `id` attribute value, defaulting to
`fieldName || "field"`. -/
def idValueOfElem (attrs1 : List JSXAttr) (fieldName : Extracted) : Extracted :=
  extractAttributeValue (findAttribute attrs1 "id")
    (jsOr fieldName (.str "field")) Extracted.str

/-- The synthesized `getInputProps(fields["…"], {...})` call of
lines 250-258. -/
def getInputPropsCallOf (attrs1 : List JSXAttr) (isField : Bool) : JExpr :=
  let fieldName := fieldNameOfElem attrs1 isField
  let idValue := idValueOfElem attrs1 fieldName
  .callE (.identE "getInputProps")
    [.memberE (.identE "fields") (.strLitE (stringLitValue (jsOr fieldName idValue)))
      true,
     .objE (getInputPropsProperties attrs1)]

/-- The `newAttrs` of lines 260-263: the spread of the `getInputProps` call,
followed by an `id` attribute carrying `idValue`. -/
def newAttrsOf (attrs1 : List JSXAttr) (isField : Bool) : List JSXAttr :=
  [.spread (getInputPropsCallOf attrs1 isField),
   .named "id" (some (.strLit (stringLitValue
     (idValueOfElem attrs1 (fieldNameOfElem attrs1 isField)))))]

/-- `createInputElement` (lines 325-334): a self-closing `input` element with
the given attributes and no children. -/
def createInputElement (attributes : List JSXAttr) : JSXElem :=
  ⟨"input", attributes, true, []⟩

/-- `transformToGetInputProps` (lines 169-292), restricted to one matched
element.  For a `Field` component the element is replaced outright — by the
custom `as` component when one resolves, else by a fresh `input` — always
self-closing with no children; for a plain element only the attribute list
is replaced. -/
def transformToGetInputProps (el : JSXElem) (isField : Bool) : JSXElem :=
  let attrs1 := filterEventAttrs el.attrs
  let newAttrs := newAttrsOf attrs1 isField
  if isField then
    match findAttribute attrs1 "as" with
    | some a =>
        match a with
        | .named _ (some _) =>
            match extractCustomComponentName a with
            | some n => ⟨n, newAttrs, true, []⟩
            | none => createInputElement newAttrs
        | _ => createInputElement newAttrs
    | none => createInputElement newAttrs
  else
    { el with attrs := newAttrs }

/-- The tag of the replacement element for a `Field` component (lines
265-287): the resolved custom `as` component name when the `as` attribute is
present with a non-null value and resolves, otherwise the fallback `input`. -/
def replacementTag (attrs1 : List JSXAttr) : String :=
  match findAttribute attrs1 "as" with
  | some (.named m (some w)) =>
      match extractCustomComponentName (.named m (some w)) with
      | some n => n
      | none => "input"
  | _ => "input"

/-- Does every present occurrence of attribute `n` carry a string-literal or
no value?  (The domain on which the ast-types literal builders are total;
see `stringLitValue`.) -/
def attrStrOrBare (attrs : List JSXAttr) (n : String) : Bool :=
  match findAttribute attrs n with
  | none => true
  | some (.named _ none) => true
  | some (.named _ (some (.strLit _))) => true
  | _ => false

/-- A concrete controlled input bound the Formik way, used as a witness
element: `<input id="firstName" onChange={h} onBlur={g} value={v} />`. -/
def controlledInputElem : JSXElem :=
  ⟨"input",
   [.named "id" (some (.strLit "firstName")),
    .named "onChange" (some (.container (.otherE "handleChange"))),
    .named "onBlur" (some (.container (.otherE "handleBlur"))),
    .named "value" (some (.container (.otherE "values.firstName")))],
   false, []⟩

/-- The concrete field element of spec §8's carry-over property:
`<Field type="email" placeholder="x" disabled />`, with no `name` or `id`
attribute (the `disabled` attribute is bare, so its AST `value` is `null`). -/
def bareDisabledField : JSXElem :=
  ⟨"Field",
   [.named "type" (some (.strLit "email")),
    .named "placeholder" (some (.strLit "x")),
    .named "disabled" none],
   true,
   [.otherE "someChild"]⟩

/-! ## The form-wrapper pass `transformFormikComponents`
(src/index.ts lines 1624-1703)

The pass walks every `<Formik>` element; for each it locates the
children-render-prop function and the root JSX element it returns, and
throws `Invalid children function` when either is missing.  Functions and
statements are modelled only as deeply as the pass inspects them. -/

mutual

/-- Expressions, as far as the form-wrapper pass inspects them. -/
inductive CExpr where
  | jsxE (label : String)
  | arrowFnE (body : CFnBody)
  | funcE (body : CFnBody)
  | otherCE (tag : String)

/-- A function body: a bare expression or a block of statements. -/
inductive CFnBody where
  | exprB (e : CExpr)
  | blockB (stmts : List CStmt)

/-- Statements, as far as the form-wrapper pass inspects them. -/
inductive CStmt where
  | retS (arg : Option CExpr)
  | otherCS (tag : String)

end

/-- A JSX child of the `<Formik>` element. -/
inductive FormikChild where
  | textC (s : String)
  | exprContainerC (e : CExpr)
  | elemC (tag : String)

/-- `path.node.children?.find((c) => c.type === "JSXExpressionContainer")?.expression`
(lines 1656-1658). -/
def childrenFnOf : List FormikChild → Option CExpr
  | [] => none
  | .exprContainerC e :: _ => some e
  | _ :: rest => childrenFnOf rest

/-- `isFunctionExpression` (lines 42-54): arrow or function expression. -/
def isFunctionExpr : CExpr → Bool
  | .arrowFnE _ => true
  | .funcE _ => true
  | _ => false

/-- The body of a function expression. -/
def fnBodyOf : CExpr → Option CFnBody
  | .arrowFnE b => some b
  | .funcE b => some b
  | _ => none

/-- `body.body.find((s) => s.type === "ReturnStatement")` (lines 1671-1673). -/
def findRet : List CStmt → Option CStmt
  | [] => none
  | .retS a :: _ => some (.retS a)
  | _ :: rest => findRet rest

/-- The `formJSX` extraction of lines 1664-1682: the body itself when it is a
JSX element, else the argument of the first return statement when that is a
JSX element; `none` otherwise. -/
def formJSXOf (b : CFnBody) : Option String :=
  match b with
  | .exprB (.jsxE l) => some l
  | .exprB _ => none
  | .blockB stmts =>
      match findRet stmts with
      | some (.retS (some (.jsxE l))) => some l
      | _ => none

/-- One iteration of the `transformFormikComponents` loop (lines 1628-1703):
resolve the render-prop function and its root JSX element, throwing
`Invalid children function` (lines 1660-1662 and 1684-1686) when either is
absent.  On success the pass goes on to rewrite the form markup; here we
return the extracted root element label. -/
def processFormikElem (children : List FormikChild) : Except String String :=
  match childrenFnOf children with
  | none => .error "Invalid children function"
  | some fn =>
      if isFunctionExpr fn then
        match fnBodyOf fn with
        | some b =>
            match formJSXOf b with
            | some l => .ok l
            | none => .error "Invalid children function"
        | none => .error "Invalid children function"
      else .error "Invalid children function"

/-- The whole pass over the list of `<Formik>` elements found in the tree, in
document order; the first malformed element throws and aborts the pass. -/
def transformFormikComponents : List (List FormikChild) → Except String (List String)
  | [] => .ok []
  | c :: rest => do
      let l ← processFormikElem c
      let ls ← transformFormikComponents rest
      pure (l :: ls)

/-- The children-render-prop precondition: some expression-container child
holds a function whose body is, or returns, a single root JSX element. -/
def hasValidRenderProp (children : List FormikChild) : Bool :=
  match childrenFnOf children with
  | none => false
  | some fn =>
      isFunctionExpr fn &&
        (match fnBodyOf fn with
         | some b => (formJSXOf b).isSome
         | none => false)

/-- The parsed tree, as far as the failure path of `convert` is concerned:
the `<Formik>` elements the wrapper pass will visit, plus the serialized
output the remaining (total) passes would produce. -/
structure ParsedTree where
  formikElems : List (List FormikChild)
  restOutput : String

/-- The post-parse portion of `convert` relevant to the failure semantics:
the form-wrapper pass is the only throwing pass; its error propagates out of
`convert` and no partial output is returned. -/
def convertAfterParse (t : ParsedTree) : Except String String :=
  (transformFormikComponents t.formikElems).map (fun _ => t.restOutput)

/-- A concrete malformed `<Formik>` element: its only child is text, so no
children-render-prop function exists. -/
def malformedFormikChildren : List FormikChild := [.textC "oops"]

/-- A concrete well-formed `<Formik>` element: a render-prop arrow function
returning a root `<form>` element. -/
def okFormikChildren : List FormikChild :=
  [.exprContainerC (.arrowFnE (.exprB (.jsxE "form")))]

/-! ## The per-field hook pass `transformUseFieldDestructurePatterns`
(src/index.ts lines 487-675)

The pass looks for three-slot array destructures of a `useField(...)` call,
collapses them to `[field, form]`, and inserts synthesized `value`,
`setValue` and (conditionally) `setTouched` declarations immediately after
the original declaration statement. -/

/-- A TypeScript type, carried around verbatim (the transform copies the
hook call's first generic argument structurally; it never interprets it). -/
inductive UTy where
  | tyName (s : String)
  | tyBool
  deriving DecidableEq

/-- An arrow-function parameter: name, optionality marker, type annotation. -/
structure UParam where
  name : String
  optional : Bool
  typeAnn : Option UTy
  deriving DecidableEq

/-- Expressions, as far as this pass builds or scans them.  `emptyBlockU`
stands for the empty block body `{}` of the `setTouched` stub. -/
inductive UExpr where
  | identU (s : String)
  | strU (s : String)
  | memberU (obj : UExpr) (prop : String)
  | callU (callee : UExpr) (args : List UExpr)
  | objU (props : List (String × UExpr × Bool))
  | notU (e : UExpr)
  | arrowU (params : List UParam) (body : UExpr)
  | emptyBlockU

/-- Binding patterns: identifiers, object patterns (their property key
names), array patterns with holes, and anything else opaque. -/
inductive UPat where
  | identP (name : String)
  | objP (keys : List String)
  | arrayP (elems : List (Option UPat))
  | otherP (tag : String)

/-- A hook-call argument, as far as lines 516-525 distinguish them. -/
inductive UArgNode where
  | strA (s : String)
  | identA (s : String)
  | otherA (tag : String)
  deriving DecidableEq

/-- The initializer call of a matched declarator: callee name, argument
list, and the first generic type parameter if present. -/
structure UseFieldInit where
  callee : String
  args : List UArgNode
  typeParam : Option UTy

/-- A statement of a component body.  `varDeclS` is a declaration statement
whose single declarator has a hook-call initializer; `constSynth` is a
synthesized `const name = rhs;`; `otherS` is any other statement, opaque
except for whether it contains a call to `setTouched` (the only thing the
pass's scope scan looks for in it). -/
inductive UStmt where
  | varDeclS (kind : String) (pat : UPat) (init : UseFieldInit)
  | constSynth (name : String) (rhs : UExpr)
  | otherS (tag : String) (callsSetTouched : Bool)

mutual

/-- Does the expression contain a `CallExpression` whose callee is the
identifier `setTouched`?  (The scope scan of lines 539-546.) -/
def exprCallsSetTouched : UExpr → Bool
  | .identU _ => false
  | .strU _ => false
  | .memberU o _ => exprCallsSetTouched o
  | .callU c args =>
      (match c with
       | .identU n => n == "setTouched"
       | _ => false) ||
        exprCallsSetTouched c || exprsCallSetTouched args
  | .objU props => propsCallSetTouched props
  | .notU e => exprCallsSetTouched e
  | .arrowU _ b => exprCallsSetTouched b
  | .emptyBlockU => false

/-- `exprCallsSetTouched` over an argument list. -/
def exprsCallSetTouched : List UExpr → Bool
  | [] => false
  | e :: es => exprCallsSetTouched e || exprsCallSetTouched es

/-- `exprCallsSetTouched` over object-literal properties. -/
def propsCallSetTouched : List (String × UExpr × Bool) → Bool
  | [] => false
  | (_, e, _) :: ps => exprCallsSetTouched e || propsCallSetTouched ps

end

/-- Does a statement contain a call to `setTouched`?  A hook-declaration
statement never does (its destructure pattern mentions `setTouched` only as
a property key, not as a call). -/
def stmtCallsSetTouched : UStmt → Bool
  | .varDeclS _ _ _ => false
  | .constSynth _ rhs => exprCallsSetTouched rhs
  | .otherS _ b => b

/-- The `hasSetTouchedCalls` scan over the enclosing function body
(lines 538-546).  The pass recomputes it per declarator on the
by-then-mutated body, but the statements it synthesizes never contain a
`setTouched` call, so scanning the original body is equivalent. -/
def bodyCallsSetTouched (body : List UStmt) : Bool :=
  body.any stmtCallsSetTouched

/-- The pattern guard of lines 496-506: a three-element array pattern
`[ObjectPattern, hole, ObjectPattern]` whose initializer is a direct call to
`useField`. -/
def matchesUseFieldPattern (pat : UPat) (i : UseFieldInit) : Bool :=
  match pat with
  | .arrayP [some (.objP _), none, some (.objP _)] => i.callee == "useField"
  | _ => false

/-- The `name:` expression of the synthesized update call (lines 510-525 and
587-590): a string-literal field name from a string-literal argument, a live
identifier reference from an identifier argument, and the literal default
`"user"` otherwise. -/
def useFieldNameValue (i : UseFieldInit) : UExpr :=
  match i.args with
  | .strA s :: _ => .strU s
  | .identA s :: _ => .identU s
  | _ => .strU "user"

/-- Does the third slot of the destructure request `setTouched`
(lines 528-536)? -/
def thirdPatHasSetTouched (pat : UPat) : Bool :=
  match pat with
  | .arrayP [_, _, some (.objP keys)] => keys.contains "setTouched"
  | _ => false

/-- The parameters of the synthesized `setValue` (lines 572-585): `value`
carrying the propagated generic type argument when present, and an optional
`shouldValidate: boolean`. -/
def setValueParams (tp : Option UTy) : List UParam :=
  [⟨"value", false, tp⟩, ⟨"shouldValidate", true, some .tyBool⟩]

/-- The synthesized `setValue` right-hand side (lines 592-623):
`(value, shouldValidate?) => form.update({ name, value, validated: !!shouldValidate })`. -/
def setValueRhs (nameValue : UExpr) (tp : Option UTy) : UExpr :=
  .arrowU (setValueParams tp)
    (.callU (.memberU (.identU "form") "update")
      [.objU [("name", nameValue, false),
              ("value", .identU "value", true),
              ("validated", .notU (.notU (.identU "shouldValidate")), false)]])

/-- The synthesized `setTouched` stub (lines 627-645):
`(_: boolean, __?: boolean) => {}`. -/
def setTouchedStub : UStmt :=
  .constSynth "setTouched"
    (.arrowU [⟨"_", false, some .tyBool⟩, ⟨"__", true, some .tyBool⟩]
      .emptyBlockU)

/-- The statements a matched declarator is replaced by (lines 548-672): the
declaration with its pattern collapsed to `[field, form]`, then — inserted
immediately after it — `const value = field.value`, the synthesized
`setValue`, and the `setTouched` stub when the destructure requested
`setTouched` or the enclosing scope calls it. -/
def rewriteUseFieldDecl (kind : String) (pat : UPat) (i : UseFieldInit)
    (scopeFlag : Bool) : List UStmt :=
  [.varDeclS kind (.arrayP [some (.identP "field"), some (.identP "form")]) i,
   .constSynth "value" (.memberU (.identU "field") "value"),
   .constSynth "setValue" (setValueRhs (useFieldNameValue i) i.typeParam)] ++
    (if thirdPatHasSetTouched pat || scopeFlag then [setTouchedStub] else [])

/-- The statement walk of the pass with the scope flag already computed. -/
def transformUseFieldGo (scopeFlag : Bool) : List UStmt → List UStmt
  | [] => []
  | .varDeclS k p i :: rest =>
      if matchesUseFieldPattern p i then
        rewriteUseFieldDecl k p i scopeFlag ++ transformUseFieldGo scopeFlag rest
      else .varDeclS k p i :: transformUseFieldGo scopeFlag rest
  | s :: rest => s :: transformUseFieldGo scopeFlag rest

/-- `transformUseFieldDestructurePatterns` (lines 487-675) over one
component body: every matching declarator is rewritten in place, with the
synthesized declarations spliced in immediately after it. -/
def transformUseFieldDecls (body : List UStmt) : List UStmt :=
  transformUseFieldGo (bodyCallsSetTouched body) body

/-- The concrete three-slot destructure of spec §8's scenario B:
`const [{value}, , {setValue, setTouched}] = useField<T>("user")`. -/
def scenarioBPat : UPat :=
  .arrayP [some (.objP ["value"]), none, some (.objP ["setValue", "setTouched"])]

/-- The concrete hook initializer of scenario B. -/
def scenarioBInit (tp : UTy) : UseFieldInit :=
  ⟨"useField", [.strA "user"], some tp⟩

/-! ## The context-destructure pass `transformFormikContextDestructuring`
(src/index.ts lines 1380-1485) and its helper synthesis
`createFormHelperDeclarations` (lines 1490-1601)

The pass replaces a destructure of the (already renamed) `useFormMetadata()`
call with a single `form` binding and inserts, right after it, only the
helper declarations the surrounding scope actually needs.  The usage scan
is over identifier names occurring in the enclosing function, modelled here
as the list `idents`. -/

/-- The capability names the scan looks for (lines 1413-1419), in order. -/
def capabilityNames : List String :=
  ["setFieldValue", "setFieldTouched", "isSubmitting", "update", "values",
   "getFieldProps"]

/-- `referencedNames`: capability names with at least one identifier
occurrence in the enclosing function (line 1419). -/
def referencedNamesOf (idents : List String) : List String :=
  capabilityNames.filter (fun n => decide (n ∈ idents))

/-- The usage profile of lines 1423-1440. -/
structure UsageFlags where
  usesValues : Bool
  usesSetFieldValue : Bool
  usesSetFieldTouched : Bool
  usesIsSubmitting : Bool
  usesGetFieldProps : Bool
  onlySetFieldValue : Bool

/-- Compute the usage profile from the destructured property names and the
identifiers referenced in the enclosing function.  (`onlySetFieldValue`
checks in the source that the list has length one and its first element is
`setFieldValue`, i.e. that it equals `["setFieldValue"]`.) -/
def usageFlagsOf (propNames idents : List String) : UsageFlags :=
  let referenced := referencedNamesOf idents
  { usesValues := decide ("values" ∈ propNames) ||
      decide ("values" ∈ referenced)
    usesSetFieldValue := decide ("setFieldValue" ∈ propNames) ||
      decide ("setFieldValue" ∈ referenced)
    usesSetFieldTouched := decide ("setFieldTouched" ∈ propNames) ||
      decide ("setFieldTouched" ∈ referenced)
    usesIsSubmitting := decide ("isSubmitting" ∈ propNames) ||
      decide ("isSubmitting" ∈ referenced)
    usesGetFieldProps := decide ("getFieldProps" ∈ propNames) ||
      decide ("getFieldProps" ∈ referenced)
    onlySetFieldValue := decide (propNames = ["setFieldValue"]) ||
      decide (referenced = ["setFieldValue"]) }

/-- The helper declarations `createFormHelperDeclarations` can synthesize.
The payloads are fixed code fragments built by `recast.parse` in the source;
only their identity matters here:
`valuesDecl` = `const values = form.value`;
`updateDecl` = `const update = form.update`;
`setFieldValueDirect` = `const setFieldValue = (name, value, shouldValidate?) =>
{ form.update({ name, value, validated: !!shouldValidate }) }`
(calling `form.update` directly, no intermediate `update` binding);
`setFieldValueViaUpdate` = the same body but calling `update(...)`;
`fieldsDecl` = `const fields = form.getFieldset()`;
`setFieldTouchedStub` = the commented no-op stub;
`isSubmittingStub` = `const isSubmitting = false`. -/
inductive HelperDecl where
  | valuesDecl
  | updateDecl
  | setFieldValueDirect
  | setFieldValueViaUpdate
  | fieldsDecl
  | setFieldTouchedStub
  | isSubmittingStub
  deriving DecidableEq

/-- `createFormHelperDeclarations` (lines 1490-1601): the usage-driven,
fixed-order helper synthesis.  `useDirectFormUpdate` (lines 1524-1528) makes
`setFieldValue` call `form.update` directly — and suppresses the `update`
binding — whenever none of `values`, `setFieldTouched`, `isSubmitting` is
used. -/
def createFormHelperDeclarations (f : UsageFlags) : List HelperDecl :=
  let useDirectFormUpdate := f.usesSetFieldValue && !f.usesValues &&
    !f.usesSetFieldTouched && !f.usesIsSubmitting
  (if f.usesValues then [.valuesDecl] else []) ++
    (if f.usesSetFieldValue && !f.onlySetFieldValue && !useDirectFormUpdate
     then [.updateDecl] else []) ++
    (if f.usesSetFieldValue then
       if f.onlySetFieldValue || useDirectFormUpdate then
         [.setFieldValueDirect]
       else [.setFieldValueViaUpdate]
     else []) ++
    (if f.usesGetFieldProps then [.fieldsDecl] else []) ++
    (if f.usesSetFieldTouched then [.setFieldTouchedStub] else []) ++
    (if f.usesIsSubmitting then [.isSubmittingStub] else [])

/-- A statement at the rewritten destructure site: the single `form`
declaration (`const form = useFormMetadata(...)`, lines 1442-1445) or one of
the helpers inserted right after it (lines 1447-1483). -/
inductive CtxStmt where
  | formDecl
  | helper (h : HelperDecl)
  deriving DecidableEq

/-- What the context-destructure pass leaves at the destructure site: the
`form` binding followed by the usage-driven helper declarations. -/
def contextRewriteOutput (propNames idents : List String) : List CtxStmt :=
  .formDecl ::
    (createFormHelperDeclarations (usageFlagsOf propNames idents)).map .helper

/-! ## The import rewriter `addConformImports`
(src/index.ts lines 1157-1268) and the required-symbol computation of
`convert` (lines 1071-1096) -/

/-- An import specifier: imported name plus local alias (equal to the
imported name when not renamed). -/
structure ImportSpec where
  imported : String
  localName : String
  deriving DecidableEq

/-- An import declaration: module source and specifier list. -/
structure ImportDecl where
  source : String
  specifiers : List ImportSpec
  deriving DecidableEq

/-- The `conformImports` set accumulated by `convert` (lines 1071-1086), in
insertion order (a JS `Set` preserves insertion order): `useField` when the
source imported `useField`; `getInputProps` and `useFormMetadata` when the
context hook is used, else `getInputProps` alone when a `<Formik>` element
or `useField` is present; `useForm` when a `<Formik>` element is present. -/
def conformImportsOf (hasUseField hasCtx hasFormik : Bool) : List String :=
  (if hasUseField then ["useField"] else []) ++
    (if hasCtx then ["getInputProps", "useFormMetadata"]
     else if hasFormik || hasUseField then ["getInputProps"] else []) ++
    (if hasFormik then ["useForm"] else [])

/-- Specifier construction (lines 1175-1188): each required name becomes a
specifier, aliased to the local name recorded for it on the removed formik
import, when one was. -/
def specifiersFor (syms : List String) (renamed : List (String × String)) :
    List ImportSpec :=
  syms.map (fun n => ⟨n, (renamed.lookup n).getD n⟩)

/-- Does the program already import from `@conform-to/react`
(lines 1171-1173)? -/
def hasConformImport (prog : List ImportDecl) : Bool :=
  prog.any (fun d => d.source == "@conform-to/react")

/-- The merge of lines 1191-1223: keep the existing specifiers, append only
the new specifiers whose imported name is not already bound. -/
def mergeSpecs (existing news : List ImportSpec) : List ImportSpec :=
  let existingNames := existing.map (fun s => s.imported)
  existing ++ news.filter (fun s => decide (s.imported ∉ existingNames))

/-- Merge the new specifiers into the first `@conform-to/react` import
(`existingConformImport.get(0)`). -/
def updateFirstConform (news : List ImportSpec) :
    List ImportDecl → List ImportDecl
  | [] => []
  | d :: rest =>
      if d.source == "@conform-to/react" then
        { d with specifiers := mergeSpecs d.specifiers news } :: rest
      else d :: updateFirstConform news rest

/-- `addConformImports` (lines 1157-1240), restricted to the
`@conform-to/react` handling.  (The `@conform-to/yup` bridge and the
textual insertion position — before the `react` import — do not affect the
`@conform-to/react` specifier sets; the fresh declaration is modelled at the
front of the program.) -/
def addConformImports (prog : List ImportDecl) (syms : List String)
    (renamed : List (String × String)) : List ImportDecl :=
  let news := specifiersFor syms renamed
  if hasConformImport prog then updateFirstConform news prog
  else ⟨"@conform-to/react", news⟩ :: prog

/-- All names imported from `@conform-to/react` by the program, in order. -/
def conformNames (prog : List ImportDecl) : List String :=
  ((prog.filter (fun d => d.source == "@conform-to/react")).map
    (fun d => d.specifiers.map (fun s => s.imported))).flatten

/-- The number of `@conform-to/react` import declarations. -/
def conformCount (prog : List ImportDecl) : Nat :=
  (prog.filter (fun d => d.source == "@conform-to/react")).length

/-! ## The field-access normalizer `transformFieldAccessPatterns`
(src/index.ts lines 1789-1885)

The normalizer is a whole-tree pass, so it gets its own first-order tree
type: argument lists, object properties and statement sequences are encoded
with nil/cons constructors, so that plain structural induction covers the
entire tree.  `wrapN` carries every node kind the passes do not inspect,
together with its children, so the passes still reach declarators, calls
and member expressions anywhere in a file. -/

/-- Syntax-tree nodes for the field-access normalizer. -/
inductive Node where
  | identN (s : String)
  | strN (s : String)
  | numN (n : Int)
  | memberN (obj : Node) (prop : Node) (computed : Bool)
  | callN (callee : Node) (args : Node)
  | argsNil
  | argsCons (head tail : Node)
  | objN (props : Node)
  | propsNil
  | propsCons (key : String) (value tail : Node)
  | declaratorN (id : Node) (init : Node)
  | seqNil
  | seqN (head tail : Node)
  | wrapN (tag : String) (children : Node)
  deriving DecidableEq

/-- The three argument shapes pass 1 accepts as the bracket-access key
(lines 1825-1830): identifier, string literal, numeric literal. -/
def isKeyArg : Node → Bool
  | .identN _ => true
  | .strN _ => true
  | .numN _ => true
  | _ => false

/-- Is the node the identifier `fields`? -/
def isFieldsIdent : Node → Bool
  | .identN s => s == "fields"
  | _ => false

/-- Is the node the identifier `getFieldProps`? -/
def isGetFieldPropsIdent : Node → Bool
  | .identN s => s == "getFieldProps"
  | _ => false

/-- Is the node the identifier `getInputProps`? -/
def isGetInputPropsIdent : Node → Bool
  | .identN s => s == "getInputProps"
  | _ => false

/-- The name of an identifier node, if it is one. -/
def identKeyOf : Node → Option String
  | .identN s => some s
  | _ => none

/-- The first argument and the rest of an encoded argument list. -/
def firstArgOf : Node → Option (Node × Node)
  | .argsCons a rest => some (a, rest)
  | _ => none

/-- Pass 3's (and pass 2's first-argument) match: a non-computed member
access `fields.<Identifier>` (lines 1862-1864 and 1872-1875); yields the
property name. -/
def fieldsDotMatch : Node → Option String
  | .memberN o p c => if isFieldsIdent o && !c then identKeyOf p else none
  | _ => none

/-- Pass 1's match on a declarator initializer (lines 1794-1834): a direct
`getFieldProps(...)` call whose first argument has key shape; yields that
argument. -/
def badInitKey (init : Node) : Option Node :=
  match init with
  | .callN f args =>
      if isGetFieldPropsIdent f then
        match firstArgOf args with
        | some (a, _) => if isKeyArg a then some a else none
        | none => none
      else none
  | _ => none

/-- The replacement initializer `getInputProps(fields[key], { type: "text" })`
(lines 1836-1843). -/
def mkGetInputProps (key : Node) : Node :=
  .callN (.identN "getInputProps")
    (.argsCons (.memberN (.identN "fields") key true)
      (.argsCons (.objN (.propsCons "type" (.strN "text") .propsNil))
        .argsNil))

/-- Pass 1 (lines 1793-1847): rewrite every variable declarator whose
initializer is a direct `getFieldProps` call with a key-shaped first
argument; any other initializer is skipped.  The synthesized initializer is
fresh (only the key argument survives), so the pass does not descend into
it. -/
def pass1 : Node → Node
  | .declaratorN id init =>
      match badInitKey init with
      | some a => .declaratorN (pass1 id) (mkGetInputProps a)
      | none => .declaratorN (pass1 id) (pass1 init)
  | .memberN o p c => .memberN (pass1 o) (pass1 p) c
  | .callN f a => .callN (pass1 f) (pass1 a)
  | .argsCons h t => .argsCons (pass1 h) (pass1 t)
  | .objN ps => .objN (pass1 ps)
  | .propsCons k v t => .propsCons k (pass1 v) (pass1 t)
  | .seqN h t => .seqN (pass1 h) (pass1 t)
  | .wrapN tag c => .wrapN tag (pass1 c)
  | n => n

/-- Pass 2 (lines 1849-1869): flip the first argument of every
`getInputProps` call from dot access to computed access; the property stays
the same identifier node. -/
def pass2 : Node → Node
  | .callN f (.argsCons a rest) =>
      match isGetInputPropsIdent f, fieldsDotMatch a with
      | true, some p =>
          .callN f (.argsCons (.memberN (.identN "fields") (.identN p) true)
            (pass2 rest))
      | _, _ => .callN (pass2 f) (pass2 (.argsCons a rest))
  | .callN f a => .callN (pass2 f) (pass2 a)
  | .declaratorN id init => .declaratorN (pass2 id) (pass2 init)
  | .memberN o p c => .memberN (pass2 o) (pass2 p) c
  | .argsCons h t => .argsCons (pass2 h) (pass2 t)
  | .objN ps => .objN (pass2 ps)
  | .propsCons k v t => .propsCons k (pass2 v) (pass2 t)
  | .seqN h t => .seqN (pass2 h) (pass2 t)
  | .wrapN tag c => .wrapN tag (pass2 c)
  | n => n

/-- Pass 3 (lines 1871-1885): flip every remaining `fields.<Identifier>`
dot access into computed access with the property name as a string-literal
key. -/
def pass3 : Node → Node
  | .memberN o p c =>
      match fieldsDotMatch (.memberN o p c) with
      | some q => .memberN (.identN "fields") (.strN q) true
      | none => .memberN (pass3 o) (pass3 p) c
  | .declaratorN id init => .declaratorN (pass3 id) (pass3 init)
  | .callN f a => .callN (pass3 f) (pass3 a)
  | .argsCons h t => .argsCons (pass3 h) (pass3 t)
  | .objN ps => .objN (pass3 ps)
  | .propsCons k v t => .propsCons k (pass3 v) (pass3 t)
  | .seqN h t => .seqN (pass3 h) (pass3 t)
  | .wrapN tag c => .wrapN tag (pass3 c)
  | n => n

/-- `transformFieldAccessPatterns` (lines 1789-1885): the three sub-passes
in order over the whole tree. -/
def transformFieldAccessPatterns (t : Node) : Node := pass3 (pass2 (pass1 t))

/-- No declarator anywhere in the tree still matches pass 1. -/
def noBadDecl : Node → Bool
  | .declaratorN id init =>
      (badInitKey init).isNone && noBadDecl id && noBadDecl init
  | .memberN o p _ => noBadDecl o && noBadDecl p
  | .callN f a => noBadDecl f && noBadDecl a
  | .argsCons h t => noBadDecl h && noBadDecl t
  | .objN ps => noBadDecl ps
  | .propsCons _ v t => noBadDecl v && noBadDecl t
  | .seqN h t => noBadDecl h && noBadDecl t
  | .wrapN _ c => noBadDecl c
  | _ => true

/-- No dot access `fields.<Identifier>` anywhere in the tree (the shared
match of passes 2 and 3). -/
def noFieldsDot : Node → Bool
  | .memberN o p c =>
      (fieldsDotMatch (.memberN o p c)).isNone && noFieldsDot o &&
        noFieldsDot p
  | .declaratorN id init => noFieldsDot id && noFieldsDot init
  | .callN f a => noFieldsDot f && noFieldsDot a
  | .argsCons h t => noFieldsDot h && noFieldsDot t
  | .objN ps => noFieldsDot ps
  | .propsCons _ v t => noFieldsDot v && noFieldsDot t
  | .seqN h t => noFieldsDot h && noFieldsDot t
  | .wrapN _ c => noFieldsDot c
  | _ => true

end FormikToConform

namespace FormikToConform

/-! ## Theorems -/

/-- C1: for every input text containing neither the substring `from "formik"`
nor the substring `useFormikContext`, `convert` returns the input byte-identical
(and does not invoke the parser), whatever the parse/transform pipeline would do. -/
theorem convert_fastPath_identity (pipeline : List Char → List Char)
    (code : List Char) (h1 : hasFormikImport code = false)
    (h2 : hasUseFormikContext code = false) :
    convert pipeline code = (code, false) := by
  simp [convert, h1, h2]

/-- Witness for C1 at the concrete input `const x = 1;` with the identity pipeline. -/
theorem convert_fastPath_identity_witness :
    hasFormikImport ("const x = 1;".data) = false ∧
    hasUseFormikContext ("const x = 1;".data) = false ∧
    convert id ("const x = 1;".data) = ("const x = 1;".data, false) :=
  ⟨by decide, by decide,
    convert_fastPath_identity id ("const x = 1;".data) (by decide) (by decide)⟩

/-- A `Field` component is always replaced by a fresh self-closing,
childless element with the synthesized attributes and the resolved tag. -/
theorem transformField_elem_eq (el : JSXElem) :
    transformToGetInputProps el true =
      ⟨replacementTag (filterEventAttrs el.attrs),
       newAttrsOf (filterEventAttrs el.attrs) true, true, []⟩ := by
  rcases h : findAttribute (filterEventAttrs el.attrs) "as" with _ | a
  · simp [transformToGetInputProps, createInputElement, replacementTag, h]
  · rcases a with ⟨m, v⟩ | g
    · rcases v with _ | w
      · simp [transformToGetInputProps, createInputElement, replacementTag, h]
      · rcases hc : extractCustomComponentName (.named m (some w)) with _ | n <;>
          simp [transformToGetInputProps, createInputElement, replacementTag, h,
            hc]
    · simp [transformToGetInputProps, createInputElement, replacementTag, h]

/-- Whatever the branch taken, the transformed element carries exactly the
synthesized attribute list `newAttrsOf`. -/
theorem transformToGetInputProps_attrs_eq (el : JSXElem) (isField : Bool) :
    (transformToGetInputProps el isField).attrs =
      newAttrsOf (filterEventAttrs el.attrs) isField := by
  cases isField with
  | false => rfl
  | true => rw [transformField_elem_eq]

/-- C3: for every form-bound element processed by the attribute-to-call
transform (on the domain where `name`/`id` attribute values are string
literals or absent), the output attribute list contains no `onChange`,
`onBlur`, `onClick` or `value` attribute; it is exactly a single spread of
the synthesized `getInputProps` call followed by the preserved `id`
attribute. -/
theorem transformToGetInputProps_attributeList (el : JSXElem) (isField : Bool)
    (hname : attrStrOrBare (filterEventAttrs el.attrs) "name" = true)
    (hid : attrStrOrBare (filterEventAttrs el.attrs) "id" = true) :
    (∀ n, n = "onChange" ∨ n = "onBlur" ∨ n = "onClick" ∨ n = "value" →
      findAttribute (transformToGetInputProps el isField).attrs n = none) ∧
    ∃ key props idv,
      (transformToGetInputProps el isField).attrs =
        [.spread (.callE (.identE "getInputProps")
            [.memberE (.identE "fields") (.strLitE key) true, .objE props]),
         .named "id" (some (.strLit idv))] := by
  have hattrs := transformToGetInputProps_attrs_eq el isField
  constructor
  · rintro n (rfl | rfl | rfl | rfl) <;>
      simp [hattrs, newAttrsOf, findAttribute, attrHasName, List.find?]
  · exact ⟨_, _, _, by rw [hattrs]; rfl⟩

/-- Witness for C3 at a concrete controlled input element. -/
theorem transformToGetInputProps_attributeList_witness :
    attrStrOrBare (filterEventAttrs controlledInputElem.attrs) "name" = true ∧
    attrStrOrBare (filterEventAttrs controlledInputElem.attrs) "id" = true ∧
    ((∀ n, n = "onChange" ∨ n = "onBlur" ∨ n = "onClick" ∨ n = "value" →
        findAttribute (transformToGetInputProps controlledInputElem false).attrs
          n = none) ∧
      ∃ key props idv,
        (transformToGetInputProps controlledInputElem false).attrs =
          [.spread (.callE (.identE "getInputProps")
              [.memberE (.identE "fields") (.strLitE key) true, .objE props]),
           .named "id" (some (.strLit idv))]) :=
  ⟨by rfl, by rfl,
    transformToGetInputProps_attributeList controlledInputElem false
      (by rfl) (by rfl)⟩

/-- C4 counterexample: for `<Field type="email" placeholder="x" disabled />`
the synthesized options object does NOT contain `disabled: true` — it is
omitted entirely, because a bare attribute's AST value is `null`, for which
`extractAttributeValue` returns the (undefined) default. -/
theorem bareDisabled_not_carried :
    getInputPropsProperties (filterEventAttrs bareDisabledField.attrs) =
      [("type", .strLitE "email"), ("placeholder", .strLitE "x")] ∧
    ∀ v, ("disabled", v) ∉
      getInputPropsProperties (filterEventAttrs bareDisabledField.attrs) := by
  refine ⟨rfl, ?_⟩
  intro v hv
  rw [show getInputPropsProperties (filterEventAttrs bareDisabledField.attrs) =
      [("type", .strLitE "email"), ("placeholder", .strLitE "x")] from rfl] at hv
  simp at hv

/-- C4 amended: at that element the synthesized options object is exactly
`{type: "email", placeholder: "x"}` — the bare `disabled` is dropped (the
string-to-boolean coercion only applies when `disabled` carries the literal
string `"true"`) — and the fallback `id="field"` attribute is present on the
self-closing replacement `input` element. -/
theorem bareDisabledField_transformed :
    transformToGetInputProps bareDisabledField true =
      ⟨"input",
       [.spread (.callE (.identE "getInputProps")
           [.memberE (.identE "fields") (.strLitE "field") true,
            .objE [("type", .strLitE "email"), ("placeholder", .strLitE "x")]]),
        .named "id" (some (.strLit "field"))],
       true, []⟩ := rfl

/-- C10: every Field component processed by the transform is replaced —
whether by the custom `as` component or by the fallback `input` tag — with a
self-closing element whose children list is empty (the original children are
discarded) and whose attribute list is exactly the `getInputProps` spread
followed by the `id` attribute. -/
theorem transformField_replacement_shape (el : JSXElem) :
    (transformToGetInputProps el true).selfClosing = true ∧
    (transformToGetInputProps el true).children = [] ∧
    (∃ key props idv,
      (transformToGetInputProps el true).attrs =
        [.spread (.callE (.identE "getInputProps")
            [.memberE (.identE "fields") (.strLitE key) true, .objE props]),
         .named "id" (some (.strLit idv))]) ∧
    ((transformToGetInputProps el true).tag = "input" ∨
      ∃ a n, findAttribute (filterEventAttrs el.attrs) "as" = some a ∧
        extractCustomComponentName a = some n ∧
        (transformToGetInputProps el true).tag = n) := by
  have helem := transformField_elem_eq el
  refine ⟨by rw [helem], by rw [helem], ⟨_, _, _, by rw [helem]; rfl⟩, ?_⟩
  rw [helem]
  rcases h : findAttribute (filterEventAttrs el.attrs) "as" with _ | a
  · left; simp [replacementTag, h]
  · rcases a with ⟨m, v⟩ | g
    · rcases v with _ | w
      · left; simp [replacementTag, h]
      · rcases hc : extractCustomComponentName (.named m (some w)) with _ | n
        · left; simp [replacementTag, h, hc]
        · right
          exact ⟨.named m (some w), n, rfl, hc, by simp [replacementTag, h, hc]⟩
    · left; simp [replacementTag, h]

/-- A `<Formik>` element without the required render-prop shape makes the
pass iteration throw. -/
theorem processFormikElem_error_of_invalid (c : List FormikChild)
    (h : hasValidRenderProp c = false) :
    processFormikElem c = .error "Invalid children function" := by
  rcases hf : childrenFnOf c with _ | fn
  · simp [processFormikElem, hf]
  · simp only [hasValidRenderProp, hf] at h
    cases hif : isFunctionExpr fn
    · simp [processFormikElem, hf, hif]
    · rw [hif] at h
      simp only [Bool.true_and] at h
      rcases hb : fnBodyOf fn with _ | b
    -- isFunctionExpr true always yields a body, but the match is total anyway
      · simp [processFormikElem, hf, hif, hb]
      · simp only [hb] at h
        rcases hj : formJSXOf b with _ | l
        · simp [processFormikElem, hf, hif, hb, hj]
        · rw [hj] at h; simp at h

/-- A well-formed `<Formik>` element is processed without error. -/
theorem processFormikElem_ok_of_valid (c : List FormikChild)
    (h : hasValidRenderProp c = true) :
    ∃ l, processFormikElem c = .ok l := by
  rcases hf : childrenFnOf c with _ | fn
  · simp only [hasValidRenderProp, hf] at h; simp at h
  · simp only [hasValidRenderProp, hf] at h
    cases hif : isFunctionExpr fn
    · rw [hif] at h; simp at h
    · rw [hif] at h
      simp only [Bool.true_and] at h
      rcases hb : fnBodyOf fn with _ | b
      · simp only [hb] at h; simp at h
      · simp only [hb] at h
        rcases hj : formJSXOf b with _ | l
        · rw [hj] at h; simp at h
        · exact ⟨l, by simp [processFormikElem, hf, hif, hb, hj]⟩

/-- As soon as one visited element is malformed, the whole pass throws. -/
theorem transformFormikComponents_error (elems : List (List FormikChild))
    (h : ∃ c ∈ elems, hasValidRenderProp c = false) :
    transformFormikComponents elems = .error "Invalid children function" := by
  induction elems with
  | nil => simp at h
  | cons c rest ih =>
      rcases h with ⟨d, hd, hbad⟩
      rcases List.mem_cons.mp hd with rfl | hmem
      · rw [transformFormikComponents,
          processFormikElem_error_of_invalid d hbad]
        rfl
      · cases hv : hasValidRenderProp c
        · rw [transformFormikComponents,
            processFormikElem_error_of_invalid c hv]
          rfl
        · obtain ⟨l, hl⟩ := processFormikElem_ok_of_valid c hv
          rw [transformFormikComponents, hl, ih ⟨d, hmem, hbad⟩]
          rfl

/-- C2: whenever some `<Formik>` element's child is not a render-prop
function returning a single root JSX element, the conversion after parsing
is a thrown `Invalid children function` error that propagates to the caller
— no partial output is returned. -/
theorem convert_throws_on_malformed_wrapper (t : ParsedTree)
    (h : ∃ c ∈ t.formikElems, hasValidRenderProp c = false) :
    convertAfterParse t = .error "Invalid children function" := by
  rw [convertAfterParse, transformFormikComponents_error t.formikElems h]
  rfl

/-- Witness for C2: a tree whose second `<Formik>` element has a plain-text
child (no render-prop function); even though the first element is fine,
`convert` throws. -/
theorem convert_throws_on_malformed_wrapper_witness :
    (∃ c ∈ (⟨[okFormikChildren, malformedFormikChildren], "out"⟩ :
        ParsedTree).formikElems, hasValidRenderProp c = false) ∧
    convertAfterParse ⟨[okFormikChildren, malformedFormikChildren], "out"⟩ =
      .error "Invalid children function" := by
  have hmem : malformedFormikChildren ∈
      [okFormikChildren, malformedFormikChildren] :=
    List.mem_cons_of_mem _ (List.mem_cons_self _ _)
  exact ⟨⟨malformedFormikChildren, hmem, rfl⟩,
    convert_throws_on_malformed_wrapper _ ⟨malformedFormikChildren, hmem, rfl⟩⟩

/-- The useField statement walk distributes over concatenation. -/
theorem transformUseFieldGo_append (flag : Bool) (xs ys : List UStmt) :
    transformUseFieldGo flag (xs ++ ys) =
      transformUseFieldGo flag xs ++ transformUseFieldGo flag ys := by
  induction xs with
  | nil => rfl
  | cons s rest ih =>
      cases s with
      | varDeclS k p i =>
          cases h : matchesUseFieldPattern p i <;>
            simp [transformUseFieldGo, h, ih]
      | constSynth n r => simp [transformUseFieldGo, ih]
      | otherS t b => simp [transformUseFieldGo, ih]

/-- C5: wherever the body contains the three-slot destructure
`const [{value}, , {setValue, setTouched}] = useField<T>("user")`, the pass
collapses its pattern to `[field, form]` and inserts, immediately after the
(unchanged-position) declaration, `const value = field.value`, a `setValue`
whose body calls `form.update({name: "user", value, validated:
!!shouldValidate})` with the generic type argument propagated onto the
`value` parameter, and the `setTouched` stub. -/
theorem useField_threeSlot_rewrite (pre post : List UStmt) (k : String)
    (tp : UTy) :
    transformUseFieldDecls
        (pre ++ .varDeclS k scenarioBPat (scenarioBInit tp) :: post) =
      transformUseFieldGo
          (bodyCallsSetTouched
            (pre ++ .varDeclS k scenarioBPat (scenarioBInit tp) :: post)) pre ++
        ([.varDeclS k (.arrayP [some (.identP "field"), some (.identP "form")])
            (scenarioBInit tp),
          .constSynth "value" (.memberU (.identU "field") "value"),
          .constSynth "setValue" (setValueRhs (.strU "user") (some tp)),
          setTouchedStub] ++
          transformUseFieldGo
            (bodyCallsSetTouched
              (pre ++ .varDeclS k scenarioBPat (scenarioBInit tp) :: post))
            post) := by
  unfold transformUseFieldDecls
  rw [transformUseFieldGo_append]
  congr 1

/-- C9: when the matched `useField` call has no argument, or an argument
that is neither a string literal nor an identifier, the synthesized
`setValue` falls back to the default field name `"user"` in its
`form.update({name: "user", ...})` call. -/
theorem useField_default_name (k : String) (keys1 keys2 : List String)
    (tp : Option UTy) (args : List UArgNode)
    (h : args = [] ∨ ∃ t rest, args = .otherA t :: rest) :
    (transformUseFieldDecls
        [.varDeclS k (.arrayP [some (.objP keys1), none, some (.objP keys2)])
          ⟨"useField", args, tp⟩])[2]? =
      some (.constSynth "setValue" (setValueRhs (.strU "user") tp)) := by
  have hname : useFieldNameValue ⟨"useField", args, tp⟩ = .strU "user" := by
    rcases h with rfl | ⟨t, rest, rfl⟩ <;> rfl
  simp [transformUseFieldDecls, bodyCallsSetTouched, stmtCallsSetTouched,
    transformUseFieldGo, matchesUseFieldPattern, rewriteUseFieldDecl, hname]

/-- Witness for C9: `const [{value}, , {setValue}] = useField()` (no
argument) synthesizes `setValue` with the literal default name `"user"`. -/
theorem useField_default_name_witness :
    (([] : List UArgNode) = [] ∨
      ∃ t rest, ([] : List UArgNode) = .otherA t :: rest) ∧
    (transformUseFieldDecls
        [.varDeclS "const"
          (.arrayP [some (.objP ["value"]), none, some (.objP ["setValue"])])
          ⟨"useField", [], none⟩])[2]? =
      some (.constSynth "setValue" (setValueRhs (.strU "user") none)) :=
  ⟨Or.inl rfl,
    useField_default_name "const" ["value"] ["setValue"] none [] (Or.inl rfl)⟩

/-- Membership in the referenced-capability scan. -/
theorem mem_referencedNamesOf (idents : List String) (n : String) :
    n ∈ referencedNamesOf idents ↔ n ∈ capabilityNames ∧ n ∈ idents := by
  simp [referencedNamesOf, List.mem_filter]

/-- C6: when, among the well-known capability names, the destructure and the
enclosing function body only ever use `setFieldValue`, the rewrite site
consists of the `form` binding and `setFieldValue` in its single-capability
direct form (calling `form.update` directly) — no `update`, `isSubmitting`,
`setFieldTouched` or `fields` binding is synthesized. -/
theorem contextDestructure_minimal (propNames idents : List String)
    (huse : "setFieldValue" ∈ propNames ∨ "setFieldValue" ∈ idents)
    (hv1 : "values" ∉ propNames) (hv2 : "values" ∉ idents)
    (ht1 : "setFieldTouched" ∉ propNames) (ht2 : "setFieldTouched" ∉ idents)
    (hs1 : "isSubmitting" ∉ propNames) (hs2 : "isSubmitting" ∉ idents)
    (hg1 : "getFieldProps" ∉ propNames) (hg2 : "getFieldProps" ∉ idents) :
    contextRewriteOutput propNames idents =
      [.formDecl, .helper .setFieldValueDirect] := by
  have hsfv : (usageFlagsOf propNames idents).usesSetFieldValue = true := by
    rcases huse with h | h
    · simp [usageFlagsOf, h]
    · have hr : "setFieldValue" ∈ referencedNamesOf idents :=
        (mem_referencedNamesOf idents _).mpr ⟨by simp [capabilityNames], h⟩
      simp [usageFlagsOf, hr]
  have hvr : "values" ∉ referencedNamesOf idents :=
    fun hc => hv2 ((mem_referencedNamesOf idents _).mp hc).2
  have htr : "setFieldTouched" ∉ referencedNamesOf idents :=
    fun hc => ht2 ((mem_referencedNamesOf idents _).mp hc).2
  have hsr : "isSubmitting" ∉ referencedNamesOf idents :=
    fun hc => hs2 ((mem_referencedNamesOf idents _).mp hc).2
  have hgr : "getFieldProps" ∉ referencedNamesOf idents :=
    fun hc => hg2 ((mem_referencedNamesOf idents _).mp hc).2
  have hval : (usageFlagsOf propNames idents).usesValues = false := by
    simp [usageFlagsOf, hv1, hvr]
  have htou : (usageFlagsOf propNames idents).usesSetFieldTouched = false := by
    simp [usageFlagsOf, ht1, htr]
  have hsub : (usageFlagsOf propNames idents).usesIsSubmitting = false := by
    simp [usageFlagsOf, hs1, hsr]
  have hgfp : (usageFlagsOf propNames idents).usesGetFieldProps = false := by
    simp [usageFlagsOf, hg1, hgr]
  cases ho : (usageFlagsOf propNames idents).onlySetFieldValue <;>
    simp [contextRewriteOutput, createFormHelperDeclarations, hsfv, hval,
      htou, hsub, hgfp, ho]

/-- Witness for C6: destructuring `{ setFieldValue }` in a scope whose
identifiers are `setFieldValue` and `handleClick`. -/
theorem contextDestructure_minimal_witness :
    ("setFieldValue" ∈ (["setFieldValue"] : List String) ∨
      "setFieldValue" ∈ (["setFieldValue", "handleClick"] : List String)) ∧
    contextRewriteOutput ["setFieldValue"] ["setFieldValue", "handleClick"] =
      [.formDecl, .helper .setFieldValueDirect] :=
  ⟨Or.inl (by decide),
    contextDestructure_minimal ["setFieldValue"] ["setFieldValue", "handleClick"]
      (Or.inl (by decide)) (by decide) (by decide) (by decide) (by decide)
      (by decide) (by decide) (by decide) (by decide)⟩

/-- The synthesized specifiers bind exactly the required names, in order. -/
theorem specifiersFor_names (syms : List String)
    (renamed : List (String × String)) :
    (specifiersFor syms renamed).map (fun s => s.imported) = syms := by
  simp [specifiersFor, List.map_map, Function.comp_def]

/-- The required-symbol list never repeats a name, whatever the feature
flags. -/
theorem conformImportsOf_nodup (a b c : Bool) :
    (conformImportsOf a b c).Nodup := by
  cases a <;> cases b <;> cases c <;> decide

/-- Without an existing conform import, the program has no conform
declaration at all. -/
theorem conformFilter_nil (prog : List ImportDecl)
    (h : hasConformImport prog = false) :
    prog.filter (fun d => d.source == "@conform-to/react") = [] := by
  simp only [hasConformImport, List.any_eq_false] at h
  exact List.filter_eq_nil_iff.mpr h

/-- With an existing conform import, at least one conform declaration. -/
theorem conformCount_pos (prog : List ImportDecl)
    (h : hasConformImport prog = true) :
    1 ≤ conformCount prog := by
  simp only [hasConformImport, List.any_eq_true] at h
  obtain ⟨d, hd, hp⟩ := h
  have hmem : d ∈ prog.filter (fun d => d.source == "@conform-to/react") :=
    List.mem_filter.mpr ⟨hd, hp⟩
  have := List.length_pos.mpr (List.ne_nil_of_mem hmem)
  exact this

/-- Merging into the single existing conform import keeps one declaration
and appends exactly the not-yet-bound new names. -/
theorem updateFirstConform_names (news : List ImportSpec)
    (prog : List ImportDecl) (h1 : conformCount prog = 1) :
    conformCount (updateFirstConform news prog) = 1 ∧
    conformNames (updateFirstConform news prog) =
      conformNames prog ++
        (news.filter (fun s => decide (s.imported ∉ conformNames prog))).map
          (fun s => s.imported) := by
  induction prog with
  | nil => simp [conformCount] at h1
  | cons d rest ih =>
      by_cases hd : d.source = "@conform-to/react"
      · have hrest : rest.filter
            (fun x => x.source == "@conform-to/react") = [] := by
          have hlen : (rest.filter
              (fun x => x.source == "@conform-to/react")).length = 0 := by
            simp only [conformCount, List.filter_cons, hd, beq_self_eq_true,
              if_true, List.length_cons] at h1
            omega
          exact List.length_eq_zero.mp hlen
        have hupd : updateFirstConform news (d :: rest) =
            { d with specifiers := mergeSpecs d.specifiers news } :: rest := by
          simp [updateFirstConform, hd]
        constructor
        · simp [conformCount, hupd, List.filter_cons, hd, hrest]
        · simp [conformNames, hupd, List.filter_cons, hd, hrest, mergeSpecs]
      · have hrest1 : conformCount rest = 1 := by
          simpa [conformCount, List.filter_cons, hd] using h1
        obtain ⟨ihc, ihn⟩ := ih hrest1
        have hupd : updateFirstConform news (d :: rest) =
            d :: updateFirstConform news rest := by
          simp [updateFirstConform, hd]
        constructor
        · simpa [conformCount, hupd, List.filter_cons, hd] using ihc
        · simpa [conformNames, hupd, List.filter_cons, hd] using ihn

/-- C7: the `@conform-to/react` import after the rewrite is a single
declaration whose imported-name set is exactly the union of the names
required by the exercised capability set with the names already imported —
no duplicates, no missing symbols — whether or not a conform import already
existed (pre-existing specifiers, hence aliases, are kept and new symbols
unioned in). -/
theorem addConformImports_completeness (prog : List ImportDecl)
    (hUF hCtx hF : Bool) (renamed : List (String × String))
    (hcount : conformCount prog ≤ 1)
    (hnodup : (conformNames prog).Nodup) :
    conformCount
        (addConformImports prog (conformImportsOf hUF hCtx hF) renamed) = 1 ∧
    conformNames
        (addConformImports prog (conformImportsOf hUF hCtx hF) renamed) =
      conformNames prog ++
        ((specifiersFor (conformImportsOf hUF hCtx hF) renamed).filter
          (fun s => decide (s.imported ∉ conformNames prog))).map
            (fun s => s.imported) ∧
    (conformNames
        (addConformImports prog (conformImportsOf hUF hCtx hF) renamed)).Nodup ∧
    (∀ n, n ∈ conformNames
        (addConformImports prog (conformImportsOf hUF hCtx hF) renamed) ↔
      n ∈ conformNames prog ∨ n ∈ conformImportsOf hUF hCtx hF) := by
  have hmain : conformCount
        (addConformImports prog (conformImportsOf hUF hCtx hF) renamed) = 1 ∧
      conformNames
          (addConformImports prog (conformImportsOf hUF hCtx hF) renamed) =
        conformNames prog ++
          ((specifiersFor (conformImportsOf hUF hCtx hF) renamed).filter
            (fun s => decide (s.imported ∉ conformNames prog))).map
              (fun s => s.imported) := by
    by_cases hex : hasConformImport prog = true
    · have h1 : conformCount prog = 1 :=
        le_antisymm hcount (conformCount_pos prog hex)
      have hout : addConformImports prog (conformImportsOf hUF hCtx hF)
          renamed = updateFirstConform
            (specifiersFor (conformImportsOf hUF hCtx hF) renamed) prog := by
        simp [addConformImports, hex]
      rw [hout]
      exact updateFirstConform_names _ prog h1
    · have hex2 : hasConformImport prog = false :=
        Bool.eq_false_iff.mpr hex
      have hfil := conformFilter_nil prog hex2
      have hnil : conformNames prog = [] := by simp [conformNames, hfil]
      have hout : addConformImports prog (conformImportsOf hUF hCtx hF)
          renamed = ⟨"@conform-to/react",
            specifiersFor (conformImportsOf hUF hCtx hF) renamed⟩ :: prog := by
        simp [addConformImports, hex2]
      constructor
      · simp [hout, conformCount, List.filter_cons, hfil]
      · simp [hout, conformNames, List.filter_cons, hfil, hnil]
  obtain ⟨hc, hn⟩ := hmain
  have hsub : List.Sublist
      (((specifiersFor (conformImportsOf hUF hCtx hF) renamed).filter
        (fun s => decide (s.imported ∉ conformNames prog))).map
          (fun s => s.imported))
      (conformImportsOf hUF hCtx hF) := by
    have h1 : List.Sublist
        ((specifiersFor (conformImportsOf hUF hCtx hF) renamed).filter
          (fun s => decide (s.imported ∉ conformNames prog)))
        (specifiersFor (conformImportsOf hUF hCtx hF) renamed) :=
      List.filter_sublist _
    have h2 := h1.map (fun s => s.imported)
    rwa [specifiersFor_names] at h2
  have hBnodup : (((specifiersFor (conformImportsOf hUF hCtx hF) renamed).filter
      (fun s => decide (s.imported ∉ conformNames prog))).map
        (fun s => s.imported)).Nodup :=
    (conformImportsOf_nodup hUF hCtx hF).sublist hsub
  have hdisj : ∀ a ∈ conformNames prog,
      a ∉ ((specifiersFor (conformImportsOf hUF hCtx hF) renamed).filter
        (fun s => decide (s.imported ∉ conformNames prog))).map
          (fun s => s.imported) := by
    intro a ha hb
    obtain ⟨s, hs, rfl⟩ := List.mem_map.mp hb
    have := (List.mem_filter.mp hs).2
    exact of_decide_eq_true this ha
  refine ⟨hc, hn, ?_, ?_⟩
  · rw [hn]
    exact hnodup.append hBnodup hdisj
  · intro n
    rw [hn]
    constructor
    · intro hmem
      rcases List.mem_append.mp hmem with h | h
      · exact Or.inl h
      · obtain ⟨s, hs, rfl⟩ := List.mem_map.mp h
        have hsin : s ∈ specifiersFor (conformImportsOf hUF hCtx hF) renamed :=
          (List.mem_filter.mp hs).1
        have : s.imported ∈ (specifiersFor (conformImportsOf hUF hCtx hF)
            renamed).map (fun s => s.imported) := List.mem_map_of_mem _ hsin
        rw [specifiersFor_names] at this
        exact Or.inr this
    · intro hmem
      rcases hmem with h | h
      · exact List.mem_append_left _ h
      · by_cases hin : n ∈ conformNames prog
        · exact List.mem_append_left _ hin
        · have : n ∈ (specifiersFor (conformImportsOf hUF hCtx hF)
              renamed).map (fun s => s.imported) := by
            rwa [specifiersFor_names]
          obtain ⟨s, hs, rfl⟩ := List.mem_map.mp this
          refine List.mem_append_right _ (List.mem_map_of_mem _ ?_)
          exact List.mem_filter.mpr ⟨hs, decide_eq_true hin⟩

/-- Witness for C7: all three capabilities exercised, with a pre-existing
conform import already binding `useField` under the alias `myUseField`. -/
theorem addConformImports_completeness_witness :
    conformCount [ImportDecl.mk "@conform-to/react"
        [ImportSpec.mk "useField" "myUseField"],
      ImportDecl.mk "react" []] ≤ 1 ∧
    (conformNames [ImportDecl.mk "@conform-to/react"
        [ImportSpec.mk "useField" "myUseField"],
      ImportDecl.mk "react" []]).Nodup ∧
    conformCount (addConformImports
      [ImportDecl.mk "@conform-to/react" [ImportSpec.mk "useField" "myUseField"],
        ImportDecl.mk "react" []]
      (conformImportsOf true true true) []) = 1 := by
  refine ⟨by decide, by decide, ?_⟩
  exact (addConformImports_completeness
    [ImportDecl.mk "@conform-to/react" [ImportSpec.mk "useField" "myUseField"],
      ImportDecl.mk "react" []]
    true true true [] (by decide) (by decide)).1

/-- Identifier tests in terms of `identKeyOf`. -/
theorem isFieldsIdent_eq (x : Node) :
    isFieldsIdent x = (identKeyOf x == some "fields") := by
  cases x <;> rfl

/-- Identifier tests in terms of `identKeyOf`, `getFieldProps` case. -/
theorem isGetFieldPropsIdent_eq (x : Node) :
    isGetFieldPropsIdent x = (identKeyOf x == some "getFieldProps") := by
  cases x <;> rfl

/-- Identifier tests in terms of `identKeyOf`, `getInputProps` case. -/
theorem isGetInputPropsIdent_eq (x : Node) :
    isGetInputPropsIdent x = (identKeyOf x == some "getInputProps") := by
  cases x <;> rfl

/-- Pass 1 never changes what identifier (if any) a node is. -/
theorem identKeyOf_pass1 (x : Node) : identKeyOf (pass1 x) = identKeyOf x := by
  cases x <;> first
    | rfl
    | (simp only [pass1]; split <;> rfl)

/-- Pass 2 never changes what identifier (if any) a node is. -/
theorem identKeyOf_pass2 (x : Node) : identKeyOf (pass2 x) = identKeyOf x := by
  cases x with
  | callN f a =>
      cases a <;> first
        | rfl
        | (simp only [pass2]; split <;> rfl)
  | _ => first
    | rfl
    | (simp only [pass2]; split <;> rfl)

/-- Pass 3 never changes what identifier (if any) a node is. -/
theorem identKeyOf_pass3 (x : Node) : identKeyOf (pass3 x) = identKeyOf x := by
  cases x <;> first
    | rfl
    | (simp only [pass3]; split <;> rfl)

/-- Pass 1 never changes whether a node has key shape. -/
theorem isKeyArg_pass1 (x : Node) : isKeyArg (pass1 x) = isKeyArg x := by
  cases x <;> first
    | rfl
    | (simp only [pass1]; split <;> rfl)

/-- Pass 2 never changes whether a node has key shape. -/
theorem isKeyArg_pass2 (x : Node) : isKeyArg (pass2 x) = isKeyArg x := by
  cases x with
  | callN f a =>
      cases a <;> first
        | rfl
        | (simp only [pass2]; split <;> rfl)
  | _ => first
    | rfl
    | (simp only [pass2]; split <;> rfl)

/-- Pass 3 never changes whether a node has key shape. -/
theorem isKeyArg_pass3 (x : Node) : isKeyArg (pass3 x) = isKeyArg x := by
  cases x <;> first
    | rfl
    | (simp only [pass3]; split <;> rfl)

/-- Pass 1 maps argument lists to argument lists, componentwise. -/
theorem firstArgOf_pass1 (x : Node) :
    firstArgOf (pass1 x) =
      (firstArgOf x).map (fun pr => (pass1 pr.1, pass1 pr.2)) := by
  cases x <;> first
    | rfl
    | (simp only [pass1]; split <;> rfl)

/-- Pass 2 maps argument lists to argument lists (the components of a
non-matching head are mapped by `pass2` itself). -/
theorem firstArgOf_pass2 (x : Node) :
    (firstArgOf (pass2 x)).isSome = (firstArgOf x).isSome := by
  cases x with
  | callN f a =>
      cases a <;> first
        | rfl
        | (simp only [pass2]; split <;> rfl)
  | _ => first
    | rfl
    | (simp only [pass2]; split <;> rfl)

/-- Pass 3 maps argument lists to argument lists, componentwise. -/
theorem firstArgOf_pass3 (x : Node) :
    firstArgOf (pass3 x) =
      (firstArgOf x).map (fun pr => (pass3 pr.1, pass3 pr.2)) := by
  cases x <;> first
    | rfl
    | (simp only [pass3]; split <;> rfl)

/-- Unfolding equation: pass 1 on a call node. -/
theorem pass1_callN (f a : Node) :
    pass1 (.callN f a) = .callN (pass1 f) (pass1 a) := by
  simp only [pass1]

/-- Unfolding equation: pass 2 on an argument cons cell. -/
theorem pass2_argsCons (a rest : Node) :
    pass2 (.argsCons a rest) = .argsCons (pass2 a) (pass2 rest) := by
  simp only [pass2]

/-- Unfolding equation: pass 3 on a call node. -/
theorem pass3_callN (f a : Node) :
    pass3 (.callN f a) = .callN (pass3 f) (pass3 a) := by
  simp only [pass3]

/-- Pass 1 cannot create a pass-1 match where there was none. -/
theorem badInitKey_pass1_none (init : Node) (h : badInitKey init = none) :
    badInitKey (pass1 init) = none := by
  cases init with
  | callN f args =>
      rw [pass1_callN]
      simp only [badInitKey] at h ⊢
      rw [isGetFieldPropsIdent_eq, identKeyOf_pass1, ← isGetFieldPropsIdent_eq]
      cases hf : isGetFieldPropsIdent f with
      | false => simp
      | true =>
          simp only [hf, if_true] at h ⊢
          rw [firstArgOf_pass1]
          cases ha : firstArgOf args with
          | none => simp
          | some pr =>
              rw [ha] at h
              simp only [Option.map_some']
              rw [isKeyArg_pass1]
              cases hk : isKeyArg pr.1 with
              | false => simp
              | true => simp [hk] at h
  | _ => first
    | rfl
    | (simp only [pass1]; split <;> rfl)
    | simp [pass1, badInitKey]

/-- Pass 3 cannot create a pass-1 match where there was none. -/
theorem badInitKey_pass3_none (init : Node) (h : badInitKey init = none) :
    badInitKey (pass3 init) = none := by
  cases init with
  | callN f args =>
      rw [pass3_callN]
      simp only [badInitKey] at h ⊢
      rw [isGetFieldPropsIdent_eq, identKeyOf_pass3, ← isGetFieldPropsIdent_eq]
      cases hf : isGetFieldPropsIdent f with
      | false => simp
      | true =>
          simp only [hf, if_true] at h ⊢
          rw [firstArgOf_pass3]
          cases ha : firstArgOf args with
          | none => simp
          | some pr =>
              rw [ha] at h
              simp only [Option.map_some']
              rw [isKeyArg_pass3]
              cases hk : isKeyArg pr.1 with
              | false => simp
              | true => simp [hk] at h
  | _ => first
    | rfl
    | (simp only [pass3]; split <;> rfl)
    | simp [pass3, badInitKey]

/-- A call without arguments never matches pass 1. -/
theorem badInitKey_callN_noArg (f args : Node)
    (hna : firstArgOf args = none) :
    badInitKey (.callN f args) = none := by
  simp only [badInitKey, hna]
  split <;> rfl

/-- A call whose arguments stay empty under pass 2 never matches pass 1. -/
theorem badInitKey_pass2_callN_noArg (f args : Node)
    (hna : firstArgOf args = none) :
    badInitKey (.callN (pass2 f) (pass2 args)) = none := by
  have h3 := firstArgOf_pass2 args
  rw [hna] at h3
  have h2 : firstArgOf (pass2 args) = none := by
    cases hx : firstArgOf (pass2 args)
    · rfl
    · rw [hx] at h3; simp at h3
  exact badInitKey_callN_noArg _ _ h2

/-- The generic (non-matching) branch of pass 2 preserves a non-match. -/
theorem badInitKey_pass2_generic (f a rest : Node)
    (h : badInitKey (.callN f (.argsCons a rest)) = none) :
    badInitKey (.callN (pass2 f) (.argsCons (pass2 a) (pass2 rest))) =
      none := by
  simp only [badInitKey, firstArgOf] at h ⊢
  rw [isGetFieldPropsIdent_eq, identKeyOf_pass2, ← isGetFieldPropsIdent_eq]
  cases hf : isGetFieldPropsIdent f with
  | false => simp
  | true =>
      simp only [hf, if_true] at h ⊢
      rw [isKeyArg_pass2]
      cases hk : isKeyArg a with
      | false => simp
      | true => simp [hk] at h

/-- Pass 2 cannot create a pass-1 match where there was none. -/
theorem badInitKey_pass2_none (init : Node) (h : badInitKey init = none) :
    badInitKey (pass2 init) = none := by
  cases init with
  | callN f args =>
      cases args with
      | argsCons a rest =>
          simp only [pass2]
          split
          · simp [badInitKey, firstArgOf, isKeyArg]
          · exact badInitKey_pass2_generic f a rest h
      | _ =>
          simp only [pass2]
          first
            | exact badInitKey_pass2_callN_noArg _ _ rfl
            | exact badInitKey_callN_noArg _ _ rfl
  | _ => first
    | rfl
    | (simp only [pass2]; split <;> rfl)
    | simp [pass2, badInitKey]

/-- The synthesized `getInputProps` initializer never matches pass 1. -/
theorem badInitKey_mkGetInputProps (a : Node) :
    badInitKey (mkGetInputProps a) = none := rfl

/-- A pass-1 match always extracts a key-shaped argument. -/
theorem badInitKey_some_key (init a : Node) (hb : badInitKey init = some a) :
    isKeyArg a = true := by
  cases init with
  | callN f args =>
      simp only [badInitKey] at hb
      cases hf : isGetFieldPropsIdent f with
      | false => simp [hf] at hb
      | true =>
          simp only [hf, if_true] at hb
          cases ha : firstArgOf args with
          | none => simp [ha] at hb
          | some pr =>
              simp only [ha] at hb
              cases hk : isKeyArg pr.1 with
              | false => simp [hk] at hb
              | true =>
                  simp only [hk, if_true, Option.some_inj] at hb
                  rw [← hb]; exact hk
  | _ => simp [badInitKey] at hb

/-- Key-shaped arguments are leaves, hence trivially free of bad
declarators. -/
theorem isKeyArg_noBadDecl (a : Node) (hk : isKeyArg a = true) :
    noBadDecl a = true := by
  cases a <;> simp [isKeyArg] at hk ⊢ <;> rfl

/-- The synthesized initializer contains no bad declarator (its only
non-fresh part is the key argument, a leaf). -/
theorem noBadDecl_mkGetInputProps (a : Node) (hk : isKeyArg a = true) :
    noBadDecl (mkGetInputProps a) = true := by
  simp [mkGetInputProps, noBadDecl, isKeyArg_noBadDecl a hk]

/-- `noBadDecl` introduction for calls. -/
theorem noBadDecl_callN_intro (f a : Node) (h1 : noBadDecl f = true)
    (h2 : noBadDecl a = true) : noBadDecl (.callN f a) = true := by
  simp [noBadDecl, h1, h2]

/-- Pass 2 acts on a call like the generic recursion whenever the arguments
contain no `fields.<Identifier>` dot access. -/
theorem pass2_callN_of_noDot (f a : Node) (h : noFieldsDot a = true) :
    pass2 (.callN f a) = .callN (pass2 f) (pass2 a) := by
  cases a with
  | argsCons x rest =>
      simp only [pass2]
      split
      · rename_i p hz hm
        exfalso
        cases x with
        | memberN o q c => simp [noFieldsDot, hm] at h
        | _ => simp [fieldsDotMatch] at hm
      · rfl
  | _ => simp only [pass2]

/-- Pass 3 does not change whether a member expression is a
`fields.<Identifier>` dot access. -/
theorem fieldsDotMatch_pass3_member (o p : Node) (c : Bool) :
    fieldsDotMatch (.memberN (pass3 o) (pass3 p) c) =
      fieldsDotMatch (.memberN o p c) := by
  have ho : isFieldsIdent (pass3 o) = isFieldsIdent o := by
    rw [isFieldsIdent_eq, identKeyOf_pass3, ← isFieldsIdent_eq]
  simp only [fieldsDotMatch, ho, identKeyOf_pass3]

/-- After pass 1, no declarator in the tree matches pass 1. -/
theorem noBadDecl_pass1 (t : Node) : noBadDecl (pass1 t) = true := by
  induction t with
  | declaratorN id init ih1 ih2 =>
      simp only [pass1]
      cases hb : badInitKey init with
      | some a =>
          have hk := badInitKey_some_key init a hb
          simp [noBadDecl, badInitKey_mkGetInputProps, ih1,
            noBadDecl_mkGetInputProps a hk, isKeyArg_noBadDecl a hk]
      | none =>
          simp [noBadDecl, badInitKey_pass1_none init hb, ih1, ih2]
  | memberN o p c ih1 ih2 => simp [pass1, noBadDecl, ih1, ih2]
  | callN f a ih1 ih2 => simp [pass1, noBadDecl, ih1, ih2]
  | argsCons h t ih1 ih2 => simp [pass1, noBadDecl, ih1, ih2]
  | objN ps ih => simp [pass1, noBadDecl, ih]
  | propsCons k v t ih1 ih2 => simp [pass1, noBadDecl, ih1, ih2]
  | seqN h t ih1 ih2 => simp [pass1, noBadDecl, ih1, ih2]
  | wrapN tag c ih => simp [pass1, noBadDecl, ih]
  | _ => rfl

/-- Pass 2 preserves the absence of pass-1 matches. -/
theorem noBadDecl_pass2 (t : Node) (h : noBadDecl t = true) :
    noBadDecl (pass2 t) = true := by
  induction t with
  | declaratorN id init ih1 ih2 =>
      simp only [noBadDecl, Bool.and_eq_true] at h
      obtain ⟨⟨hI, h1⟩, h2⟩ := h
      have hbn : badInitKey init = none := Option.isNone_iff_eq_none.mp hI
      simp [pass2, noBadDecl, badInitKey_pass2_none init hbn, ih1 h1, ih2 h2]
  | memberN o p c ih1 ih2 =>
      simp only [noBadDecl, Bool.and_eq_true] at h
      simp [pass2, noBadDecl, ih1 h.1, ih2 h.2]
  | callN f a ihf iha =>
      simp only [noBadDecl, Bool.and_eq_true] at h
      obtain ⟨hf, ha⟩ := h
      cases a with
      | argsCons x rest =>
          simp only [pass2]
          split
          · have h2 := iha ha
            rw [pass2_argsCons] at h2
            simp only [noBadDecl, Bool.and_eq_true] at h2
            simp [noBadDecl, hf, h2.2]
          · have h2 := iha ha
            rw [pass2_argsCons] at h2
            simp only [noBadDecl, Bool.and_eq_true] at h2
            simp [noBadDecl, ihf hf, h2.1, h2.2]
      | _ =>
          simp only [pass2]
          exact noBadDecl_callN_intro _ _ (ihf hf) (iha ha)
  | argsCons x t ih1 ih2 =>
      simp only [noBadDecl, Bool.and_eq_true] at h
      simp [pass2, noBadDecl, ih1 h.1, ih2 h.2]
  | objN ps ih =>
      simp only [noBadDecl] at h
      simp [pass2, noBadDecl, ih h]
  | propsCons k v t ih1 ih2 =>
      simp only [noBadDecl, Bool.and_eq_true] at h
      simp [pass2, noBadDecl, ih1 h.1, ih2 h.2]
  | seqN x t ih1 ih2 =>
      simp only [noBadDecl, Bool.and_eq_true] at h
      simp [pass2, noBadDecl, ih1 h.1, ih2 h.2]
  | wrapN tag c ih =>
      simp only [noBadDecl] at h
      simp [pass2, noBadDecl, ih h]
  | _ => rfl

/-- Pass 3 preserves the absence of pass-1 matches. -/
theorem noBadDecl_pass3 (t : Node) (h : noBadDecl t = true) :
    noBadDecl (pass3 t) = true := by
  induction t with
  | declaratorN id init ih1 ih2 =>
      simp only [noBadDecl, Bool.and_eq_true] at h
      obtain ⟨⟨hI, h1⟩, h2⟩ := h
      have hbn : badInitKey init = none := Option.isNone_iff_eq_none.mp hI
      simp [pass3, noBadDecl, badInitKey_pass3_none init hbn, ih1 h1, ih2 h2]
  | memberN o p c ih1 ih2 =>
      simp only [noBadDecl, Bool.and_eq_true] at h
      simp only [pass3]
      split
      · rfl
      · simp [noBadDecl, ih1 h.1, ih2 h.2]
  | callN f a ih1 ih2 =>
      simp only [noBadDecl, Bool.and_eq_true] at h
      simp [pass3, noBadDecl, ih1 h.1, ih2 h.2]
  | argsCons x t ih1 ih2 =>
      simp only [noBadDecl, Bool.and_eq_true] at h
      simp [pass3, noBadDecl, ih1 h.1, ih2 h.2]
  | objN ps ih =>
      simp only [noBadDecl] at h
      simp [pass3, noBadDecl, ih h]
  | propsCons k v t ih1 ih2 =>
      simp only [noBadDecl, Bool.and_eq_true] at h
      simp [pass3, noBadDecl, ih1 h.1, ih2 h.2]
  | seqN x t ih1 ih2 =>
      simp only [noBadDecl, Bool.and_eq_true] at h
      simp [pass3, noBadDecl, ih1 h.1, ih2 h.2]
  | wrapN tag c ih =>
      simp only [noBadDecl] at h
      simp [pass3, noBadDecl, ih h]
  | _ => rfl

/-- After pass 3, no `fields.<Identifier>` dot access remains anywhere. -/
theorem noFieldsDot_pass3 (t : Node) : noFieldsDot (pass3 t) = true := by
  induction t with
  | memberN o p c ih1 ih2 =>
      simp only [pass3]
      split
      · rfl
      · rename_i hno
        simp [noFieldsDot, fieldsDotMatch_pass3_member, hno, ih1, ih2]
  | declaratorN id init ih1 ih2 => simp [pass3, noFieldsDot, ih1, ih2]
  | callN f a ih1 ih2 => simp [pass3, noFieldsDot, ih1, ih2]
  | argsCons x t ih1 ih2 => simp [pass3, noFieldsDot, ih1, ih2]
  | objN ps ih => simp [pass3, noFieldsDot, ih]
  | propsCons k v t ih1 ih2 => simp [pass3, noFieldsDot, ih1, ih2]
  | seqN x t ih1 ih2 => simp [pass3, noFieldsDot, ih1, ih2]
  | wrapN tag c ih => simp [pass3, noFieldsDot, ih]
  | _ => rfl

/-- Pass 1 is the identity on trees without pass-1 matches. -/
theorem pass1_fix (t : Node) (h : noBadDecl t = true) : pass1 t = t := by
  induction t with
  | declaratorN id init ih1 ih2 =>
      simp only [noBadDecl, Bool.and_eq_true] at h
      obtain ⟨⟨hI, h1⟩, h2⟩ := h
      have hbn : badInitKey init = none := Option.isNone_iff_eq_none.mp hI
      simp only [pass1, hbn]
      rw [ih1 h1, ih2 h2]
  | memberN o p c ih1 ih2 =>
      simp only [noBadDecl, Bool.and_eq_true] at h
      simp only [pass1]
      rw [ih1 h.1, ih2 h.2]
  | callN f a ih1 ih2 =>
      simp only [noBadDecl, Bool.and_eq_true] at h
      rw [pass1_callN, ih1 h.1, ih2 h.2]
  | argsCons x t ih1 ih2 =>
      simp only [noBadDecl, Bool.and_eq_true] at h
      simp only [pass1]
      rw [ih1 h.1, ih2 h.2]
  | objN ps ih =>
      simp only [noBadDecl] at h
      simp only [pass1]
      rw [ih h]
  | propsCons k v t ih1 ih2 =>
      simp only [noBadDecl, Bool.and_eq_true] at h
      simp only [pass1]
      rw [ih1 h.1, ih2 h.2]
  | seqN x t ih1 ih2 =>
      simp only [noBadDecl, Bool.and_eq_true] at h
      simp only [pass1]
      rw [ih1 h.1, ih2 h.2]
  | wrapN tag c ih =>
      simp only [noBadDecl] at h
      simp only [pass1]
      rw [ih h]
  | _ => rfl

/-- Pass 2 is the identity on trees without `fields.<Identifier>` dot
accesses (its match is a special case of pass 3's). -/
theorem pass2_fix (t : Node) (h : noFieldsDot t = true) : pass2 t = t := by
  induction t with
  | callN f a ihf iha =>
      simp only [noFieldsDot, Bool.and_eq_true] at h
      obtain ⟨hf, ha⟩ := h
      rw [pass2_callN_of_noDot f a ha, ihf hf, iha ha]
  | memberN o p c ih1 ih2 =>
      simp only [noFieldsDot, Bool.and_eq_true] at h
      simp only [pass2]
      rw [ih1 h.1.2, ih2 h.2]
  | declaratorN id init ih1 ih2 =>
      simp only [noFieldsDot, Bool.and_eq_true] at h
      simp only [pass2]
      rw [ih1 h.1, ih2 h.2]
  | argsCons x t ih1 ih2 =>
      simp only [noFieldsDot, Bool.and_eq_true] at h
      simp only [pass2]
      rw [ih1 h.1, ih2 h.2]
  | objN ps ih =>
      simp only [noFieldsDot] at h
      simp only [pass2]
      rw [ih h]
  | propsCons k v t ih1 ih2 =>
      simp only [noFieldsDot, Bool.and_eq_true] at h
      simp only [pass2]
      rw [ih1 h.1, ih2 h.2]
  | seqN x t ih1 ih2 =>
      simp only [noFieldsDot, Bool.and_eq_true] at h
      simp only [pass2]
      rw [ih1 h.1, ih2 h.2]
  | wrapN tag c ih =>
      simp only [noFieldsDot] at h
      simp only [pass2]
      rw [ih h]
  | _ => rfl

/-- Pass 3 is the identity on trees without `fields.<Identifier>` dot
accesses. -/
theorem pass3_fix (t : Node) (h : noFieldsDot t = true) : pass3 t = t := by
  induction t with
  | memberN o p c ih1 ih2 =>
      simp only [noFieldsDot, Bool.and_eq_true] at h
      obtain ⟨⟨hm, h1⟩, h2⟩ := h
      have hmeq : fieldsDotMatch (.memberN o p c) = none :=
        Option.isNone_iff_eq_none.mp hm
      simp only [pass3, hmeq]
      rw [ih1 h1, ih2 h2]
  | declaratorN id init ih1 ih2 =>
      simp only [noFieldsDot, Bool.and_eq_true] at h
      simp only [pass3]
      rw [ih1 h.1, ih2 h.2]
  | callN f a ih1 ih2 =>
      simp only [noFieldsDot, Bool.and_eq_true] at h
      rw [pass3_callN, ih1 h.1, ih2 h.2]
  | argsCons x t ih1 ih2 =>
      simp only [noFieldsDot, Bool.and_eq_true] at h
      simp only [pass3]
      rw [ih1 h.1, ih2 h.2]
  | objN ps ih =>
      simp only [noFieldsDot] at h
      simp only [pass3]
      rw [ih h]
  | propsCons k v t ih1 ih2 =>
      simp only [noFieldsDot, Bool.and_eq_true] at h
      simp only [pass3]
      rw [ih1 h.1, ih2 h.2]
  | seqN x t ih1 ih2 =>
      simp only [noFieldsDot, Bool.and_eq_true] at h
      simp only [pass3]
      rw [ih1 h.1, ih2 h.2]
  | wrapN tag c ih =>
      simp only [noFieldsDot] at h
      simp only [pass3]
      rw [ih h]
  | _ => rfl

/-- C8: the field-access normalizer is idempotent — running the three
sub-passes a second time on any syntax tree changes nothing. -/
theorem transformFieldAccessPatterns_idempotent (t : Node) :
    transformFieldAccessPatterns (transformFieldAccessPatterns t) =
      transformFieldAccessPatterns t := by
  have h1 : noBadDecl (pass3 (pass2 (pass1 t))) = true :=
    noBadDecl_pass3 _ (noBadDecl_pass2 _ (noBadDecl_pass1 t))
  have h2 : noFieldsDot (pass3 (pass2 (pass1 t))) = true :=
    noFieldsDot_pass3 _
  show pass3 (pass2 (pass1 (pass3 (pass2 (pass1 t))))) =
    pass3 (pass2 (pass1 t))
  rw [pass1_fix _ h1, pass2_fix _ h2, pass3_fix _ h2]

end FormikToConform
